import Mathlib

/-!
# NeoPG: key expiration time subpacket and libgcrypt `global.cpp`

A shallow embedding of

* `src/neopg/openpgp/signature/subpacket/key_expiration_time_subpacket.cpp`
  (grammar, action, control, `create_or_throw`, `write_body`), and
* `src/legacy/libgcrypt/src/global.cpp`
  (version string parsing, `do_malloc` and the `x`-allocators with the
  out-of-core handler),

followed by theorems about them.
-/

namespace NeoPG

/-! ## Part 1: the key expiration time subpacket -/

/-- One octet (`uint8_t`, an element of the parser's memory input). -/
abbrev Byte := Fin 256

/-- The conversion `static_cast<uint8_t>(x)` of an unsigned value. -/
def to_uint8 (x : Nat) : Byte := ⟨x % 256, Nat.mod_lt x (by decide)⟩

/-- The memory input the grammar runs on: the octets not yet consumed and the
byte offset of the read position from the start of the body. -/
structure Input where
  byte : Nat
  rest : List Byte
  deriving DecidableEq, Repr

/-- The input a parse starts with: the whole body, at offset 0. -/
def Input.start (body : List Byte) : Input := { byte := 0, rest := body }

/-- The exception `parser_error(error_message, in)`: the message of the rule
that failed and the position of the input at the time it was raised. -/
structure parser_error where
  message : String
  position : Nat
  deriving DecidableEq, Repr

/-- The class `KeyExpirationTimeSubpacket`: a single `uint32_t m_expiration`. -/
structure KeyExpirationTimeSubpacket where
  m_expiration : Nat
  deriving DecidableEq, Repr

namespace key_expiration_time_subpacket

/-- The two rules that `grammar` puts under `must`. -/
inductive Rule where
  | expiration
  | eof
  deriving DecidableEq, Repr

/-- The rule `bytes<Num>` of the grammar library: it matches when at least
`Num` octets remain and then consumes exactly `Num` of them; otherwise it fails
and consumes nothing. -/
def pegtl.bytes (num : Nat) (i : Input) : Option Input :=
  if num ≤ i.rest.length then
    some { byte := i.byte + num, rest := i.rest.drop num }
  else
    none

/-- The rule `eof` of the grammar library: it matches when no octet remains
and consumes nothing. -/
def pegtl.eof (i : Input) : Option Input :=
  if i.rest.isEmpty then some i else none

/-- Rule matching: `struct expiration : bytes<4> {}` and `eof`. -/
def Rule.run : Rule → Input → Option Input
  | .expiration, i => pegtl.bytes 4 i
  | .eof, i => pegtl.eof i

/-- Modelled from the spec: the helper template `bind<T, R, Field>` of
`neopg/intern/pegtl.h` is not among the sources. Following the primitive
`fixed_bytes(n)` of the spec, the matched octets are bound to the field as a
big-endian unsigned integer; the field is a `uint32_t`, hence the reduction
modulo `2^32`. -/
def bind (matched : List Byte) : Nat :=
  (matched.foldl (fun acc b => acc * 256 + b.val) 0) % 2 ^ 32

/-- The action table: `action<expiration>` binds `m_expiration`, every other
rule has `nothing`. The action sees the octets the rule matched. -/
def action : Rule → List Byte → KeyExpirationTimeSubpacket → KeyExpirationTimeSubpacket
  | .expiration, matched, _ => { m_expiration := bind matched }
  | .eof, _, pkt => pkt

/-- The static member `control<Rule>::error_message`. -/
def error_message : Rule → String
  | .expiration => "key expiration time subpacket is invalid"
  | .eof => "key expiration time subpacket is too large"

/-- The function `control<Rule>::raise`: throw a `parser_error` built from the
rule's message and the input. -/
def raise (r : Rule) (i : Input) : parser_error :=
  { message := error_message r, position := i.byte }

/-- The combinator `must<Rule>`: match the rule and run its action on what it
matched; when the rule does not match, `control<Rule>::raise` is called on the
input as it stands (a failed rule has consumed nothing). -/
def must (r : Rule) (i : Input) (pkt : KeyExpirationTimeSubpacket) :
    Except parser_error (Input × KeyExpirationTimeSubpacket) :=
  match r.run i with
  | some j => .ok (j, action r (i.rest.take (j.byte - i.byte)) pkt)
  | none => .error (raise r i)

/-- The grammar `struct grammar : must<expiration, eof> {}`: the sequence of
`must<expiration>` and `must<eof>`. -/
def grammar (i : Input) (pkt : KeyExpirationTimeSubpacket) :
    Except parser_error (Input × KeyExpirationTimeSubpacket) :=
  match must .expiration i pkt with
  | .ok (j, pkt1) => must .eof j pkt1
  | .error e => .error e

end key_expiration_time_subpacket

/-- The function `KeyExpirationTimeSubpacket::create_or_throw`: make a fresh
packet, parse the whole input with the grammar into it, and return it; an
exception raised by the parse leaves the caller without a packet. The field of
the fresh packet is overwritten by every successful parse, so the value it
starts with (here 0) never reaches a result. -/
def KeyExpirationTimeSubpacket.create_or_throw (body : List Byte) :
    Except parser_error KeyExpirationTimeSubpacket :=
  let packet : KeyExpirationTimeSubpacket := { m_expiration := 0 }
  match key_expiration_time_subpacket.grammar (Input.start body) packet with
  | .ok (_, pkt) => .ok pkt
  | .error e => .error e

/-- The function `KeyExpirationTimeSubpacket::write_body`: four single-octet
insertions into the output stream, whose content so far is `out`. -/
def KeyExpirationTimeSubpacket.write_body (self : KeyExpirationTimeSubpacket)
    (out : List Byte) : List Byte :=
  out ++ [to_uint8 (self.m_expiration >>> 24),
          to_uint8 (self.m_expiration >>> 16),
          to_uint8 (self.m_expiration >>> 8),
          to_uint8 self.m_expiration]

/-! ## Part 2: libgcrypt `global.cpp` -/

namespace libgcrypt

/-! ### Version number parsing -/

/-- The value of a C `int` (32 bits, two's complement) after an arithmetic
result `x` is stored in it. -/
def wrap_int (x : Int) : Int := (x + 2 ^ 31) % 2 ^ 32 - 2 ^ 31

/-- The function `isdigit` of `<ctype.h>`. -/
def isdigit (c : Char) : Bool := decide (48 ≤ c.toNat ∧ c.toNat ≤ 57)

/-- The expression `*s` for a pointer `s` into a C string: the string is held
as the list of its characters before the terminator, a pointer into it is a
suffix, and reading at the end gives the terminating NUL. -/
def deref (s : List Char) : Char := s.headD (Char.ofNat 0)

/-- The loop `for (; isdigit(*s); s++) { val *= 10; val += *s - '0'; }` of
`parse_version_number`, returning the final `s` and `val`. -/
def parse_version_number.loop : List Char → Int → List Char × Int
  | [], val => ([], val)
  | c :: cs, val =>
    if isdigit c then
      parse_version_number.loop cs (wrap_int (wrap_int (val * 10) + ((c.toNat : Int) - 48)))
    else
      (c :: cs, val)

/-- The function `parse_version_number`: given `s` and the current content of
`*number`, the returned pointer (`none` for NULL) and the new content of
`*number`. -/
def parse_version_number (s : List Char) (number : Int) : Option (List Char) × Int :=
  if deref s = '0' ∧ isdigit (deref (s.drop 1)) = true then
    (none, number)
  else
    let r := parse_version_number.loop s 0
    (if r.2 < 0 then none else some r.1, r.2)

/-- The function `parse_version_string`: given `s` and the current contents of
`*major`, `*minor` and `*micro`, the returned pointer (`none` for NULL) and the
new contents of the three integers. -/
def parse_version_string (s : List Char) (major minor micro : Int) :
    Option (List Char) × Int × Int × Int :=
  match parse_version_number s major with
  | (none, major1) => (none, major1, minor, micro)
  | (some s1, major1) =>
    if deref s1 ≠ '.' then (none, major1, minor, micro)
    else
      match parse_version_number (s1.drop 1) minor with
      | (none, minor1) => (none, major1, minor1, micro)
      | (some s2, minor1) =>
        if deref s2 ≠ '.' then (none, major1, minor1, micro)
        else
          match parse_version_number (s2.drop 1) micro with
          | (none, micro1) => (none, major1, minor1, micro1)
          | (some s3, micro1) => (some s3, major1, minor1, micro1)

/-! ### Memory management -/

/-- A pointer (`void *`); `0` is NULL. -/
abbrev Ptr := Nat

/-- The null pointer. -/
def NULL : Ptr := 0

/-- The constant `ENOMEM` of `<errno.h>`. -/
def ENOMEM : Int := 12

/-- The type `gcry_handler_no_mem_t`, `int (*)(void *, size_t, unsigned int)`:
a handler gets the opaque value, a size and a flag word; it may change the
state `H` of the private allocators and `errno`, and returns an `int`. -/
abbrev gcry_handler_no_mem_t (H : Type) := Nat → Nat → Nat → H → Int → Int × H × Int

/-- What the functions of this file do to the outside, in order: the calls of
the private allocators and the calls of the out-of-core handler, each with its
arguments. -/
inductive Event where
  | private_malloc (n : Nat)
  | private_malloc_secure (n : Nat) (xhint : Int)
  | private_realloc (a : Ptr) (n : Nat) (xhint : Int)
  | private_free (p : Ptr)
  | outofcore_handler (value : Nat) (n : Nat) (flags : Nat)
  deriving DecidableEq, Repr

/-- The declarations this file uses and does not define: the flag bits of
`g10lib.h`, the private allocators of `stdmem` and `secmem` acting on their
state `H` and on `errno`, `gpg_error_from_errno`, and the C library's `strlen`
and `strcpy` on memory. -/
structure Env (H : Type) where
  GCRY_ALLOC_FLAG_SECURE : Nat
  GCRY_ALLOC_FLAG_XHINT : Nat
  _gcry_private_malloc : Nat → H → Int → Ptr × H × Int
  _gcry_private_malloc_secure : Nat → Int → H → Int → Ptr × H × Int
  _gcry_private_realloc : Ptr → Nat → Int → H → Int → Ptr × H × Int
  _gcry_private_free : Ptr → H → Int → H × Int
  _gcry_private_is_secure : Ptr → H → Int
  gpg_error_from_errno : Int → Nat
  strlen : Ptr → H → Nat
  strcpy : Ptr → Ptr → H → H

/-- The state the functions run in: the state of the private allocators,
`errno`, the static variables `outofcore_handler`, `outofcore_handler_value`
and `no_secure_memory`, and the events so far (oldest first). -/
structure World (H : Type) where
  heap : H
  errno : Int
  outofcore_handler : Option (gcry_handler_no_mem_t H)
  outofcore_handler_value : Nat
  no_secure_memory : Int
  events : List Event

/-- The function `_gcry_set_outofcore_handler`: it stores the handler and the
opaque value (after `global_init`, which touches neither variable). -/
def _gcry_set_outofcore_handler {H : Type} (f : Option (gcry_handler_no_mem_t H))
    (value : Nat) (w : World H) : World H :=
  { w with outofcore_handler := f, outofcore_handler_value := value }

/-- The function `get_no_secure_memory`. -/
def get_no_secure_memory {H : Type} (w : World H) : Int :=
  if w.no_secure_memory = 0 then 0 else w.no_secure_memory

/-- Lines 321 to 325 of `do_malloc`: the call of the underlying allocator,
`_gcry_private_malloc_secure` when the secure flag is set and secure memory is
not disabled, `_gcry_private_malloc` otherwise. -/
def do_malloc.allocate {H : Type} (env : Env H) (n flags : Nat) (w : World H) :
    Ptr × World H :=
  if flags &&& env.GCRY_ALLOC_FLAG_SECURE ≠ 0 ∧ get_no_secure_memory w = 0 then
    let xhint : Int := if flags &&& env.GCRY_ALLOC_FLAG_XHINT ≠ 0 then 1 else 0
    let r := env._gcry_private_malloc_secure n xhint w.heap w.errno
    (r.1, { w with heap := r.2.1, errno := r.2.2,
                   events := w.events ++ [Event.private_malloc_secure n xhint] })
  else
    let r := env._gcry_private_malloc n w.heap w.errno
    (r.1, { w with heap := r.2.1, errno := r.2.2,
                   events := w.events ++ [Event.private_malloc n] })

/-- The function `do_malloc`: given the content of `*mem` before the call, the
returned error code, the content of `*mem` after it, and the new state. -/
def do_malloc {H : Type} (env : Env H) (n flags : Nat) (mem : Ptr) (w : World H) :
    Nat × Ptr × World H :=
  let r := do_malloc.allocate env n flags w
  if r.1 = NULL then
    let w2 : World H := if r.2.errno = 0 then { r.2 with errno := ENOMEM } else r.2
    (env.gpg_error_from_errno w2.errno, mem, w2)
  else
    (0, r.1, r.2)

/-- The function `_gcry_malloc`. -/
def _gcry_malloc {H : Type} (env : Env H) (n : Nat) (w : World H) : Ptr × World H :=
  let r := do_malloc env n 0 NULL w
  (r.2.1, r.2.2)

/-- The function `_gcry_malloc_secure_core`. -/
def _gcry_malloc_secure_core {H : Type} (env : Env H) (n : Nat) (xhint : Int)
    (w : World H) : Ptr × World H :=
  let r := do_malloc env n
    (env.GCRY_ALLOC_FLAG_SECURE ||| (if xhint ≠ 0 then env.GCRY_ALLOC_FLAG_XHINT else 0))
    NULL w
  (r.2.1, r.2.2)

/-- The function `_gcry_malloc_secure`. -/
def _gcry_malloc_secure {H : Type} (env : Env H) (n : Nat) (w : World H) :
    Ptr × World H :=
  _gcry_malloc_secure_core env n 0 w

/-- The function `_gcry_is_secure`. -/
def _gcry_is_secure {H : Type} (env : Env H) (a : Ptr) (w : World H) : Int :=
  if get_no_secure_memory w ≠ 0 then 0 else env._gcry_private_is_secure a w.heap

/-- The function `_gcry_free` (also the macro `xfree`). -/
def _gcry_free {H : Type} (env : Env H) (p : Ptr) (w : World H) : World H :=
  if p = NULL then w
  else
    let save_errno := w.errno
    let r := env._gcry_private_free p w.heap w.errno
    let w1 : World H := { w with heap := r.1, errno := r.2,
                                 events := w.events ++ [Event.private_free p] }
    if save_errno ≠ 0 then { w1 with errno := save_errno } else w1

/-- The function `_gcry_realloc_core`. -/
def _gcry_realloc_core {H : Type} (env : Env H) (a : Ptr) (n : Nat) (xhint : Int)
    (w : World H) : Ptr × World H :=
  if a = NULL then _gcry_malloc env n w
  else if n = 0 then (NULL, _gcry_free env a w)
  else
    let r := env._gcry_private_realloc a n xhint w.heap w.errno
    let w1 : World H := { w with heap := r.2.1, errno := r.2.2,
                                 events := w.events ++ [Event.private_realloc a n xhint] }
    (r.1, if r.1 = NULL ∧ w1.errno = 0 then { w1 with errno := ENOMEM } else w1)

/-- The function `_gcry_strdup_core`; `string` points to a C string in
memory. -/
def _gcry_strdup_core {H : Type} (env : Env H) (string : Ptr) (xhint : Int)
    (w : World H) : Ptr × World H :=
  let string_n := env.strlen string w.heap
  let r := if _gcry_is_secure env string w ≠ 0 then
      _gcry_malloc_secure_core env (string_n + 1) xhint w
    else
      _gcry_malloc env (string_n + 1) w
  (r.1, if r.1 ≠ NULL then { r.2 with heap := env.strcpy r.1 string r.2.heap } else r.2)

/-- How a call of one of the `x`-allocators ends: it returns a pointer, or
`_gcry_fatal_error` is called with an error code and a text (which does not
return), or the loop has not ended within the given number of rounds. -/
inductive Outcome (H : Type) where
  | returned (p : Ptr) (w : World H)
  | fatal_error (rc : Nat) (text : Option String) (w : World H)
  | running (w : World H)

/-- The state an outcome carries. -/
def Outcome.world {H : Type} : Outcome H → World H
  | .returned _ w => w
  | .fatal_error _ _ w => w
  | .running w => w

/-- The call `outofcore_handler(outofcore_handler_value, n, flags)` through the
function pointer `f`. -/
def call_outofcore_handler {H : Type} (f : gcry_handler_no_mem_t H) (n flags : Nat)
    (w : World H) : Int × World H :=
  let r := f w.outofcore_handler_value n flags w.heap w.errno
  (r.1, { w with heap := r.2.1, errno := r.2.2,
                 events := w.events ++ [Event.outofcore_handler w.outofcore_handler_value n flags] })

/-- The function `_gcry_xmalloc`, for at most `fuel` rounds of its loop. -/
def _gcry_xmalloc {H : Type} (env : Env H) (n : Nat) : Nat → World H → Outcome H
  | 0, w => .running w
  | fuel + 1, w =>
    let r := _gcry_malloc env n w
    if r.1 ≠ NULL then .returned r.1 r.2
    else
      match r.2.outofcore_handler with
      | none => .fatal_error (env.gpg_error_from_errno r.2.errno) none r.2
      | some f =>
        let h := call_outofcore_handler f n 0 r.2
        if h.1 = 0 then .fatal_error (env.gpg_error_from_errno h.2.errno) none h.2
        else _gcry_xmalloc env n fuel h.2

/-- The function `_gcry_xrealloc`, for at most `fuel` rounds of its loop. -/
def _gcry_xrealloc {H : Type} (env : Env H) (a : Ptr) (n : Nat) : Nat → World H → Outcome H
  | 0, w => .running w
  | fuel + 1, w =>
    let r := _gcry_realloc_core env a n 1 w
    if r.1 ≠ NULL then .returned r.1 r.2
    else
      match r.2.outofcore_handler with
      | none => .fatal_error (env.gpg_error_from_errno r.2.errno) none r.2
      | some f =>
        let h := call_outofcore_handler f n (if _gcry_is_secure env a r.2 ≠ 0 then 3 else 2) r.2
        if h.1 = 0 then .fatal_error (env.gpg_error_from_errno h.2.errno) none h.2
        else _gcry_xrealloc env a n fuel h.2

/-- The function `_gcry_xmalloc_secure`, for at most `fuel` rounds of its
loop. -/
def _gcry_xmalloc_secure {H : Type} (env : Env H) (n : Nat) : Nat → World H → Outcome H
  | 0, w => .running w
  | fuel + 1, w =>
    let r := _gcry_malloc_secure_core env n 1 w
    if r.1 ≠ NULL then .returned r.1 r.2
    else
      match r.2.outofcore_handler with
      | none =>
        .fatal_error (env.gpg_error_from_errno r.2.errno) (some "out of core in secure memory") r.2
      | some f =>
        let h := call_outofcore_handler f n 1 r.2
        if h.1 = 0 then
          .fatal_error (env.gpg_error_from_errno h.2.errno) (some "out of core in secure memory") h.2
        else _gcry_xmalloc_secure env n fuel h.2

/-- The function `_gcry_xstrdup`, for at most `fuel` rounds of its loop. -/
def _gcry_xstrdup {H : Type} (env : Env H) (string : Ptr) : Nat → World H → Outcome H
  | 0, w => .running w
  | fuel + 1, w =>
    let r := _gcry_strdup_core env string 1 w
    if r.1 ≠ NULL then .returned r.1 r.2
    else
      let n := env.strlen string r.2.heap
      let is_sec : Nat := if _gcry_is_secure env string r.2 ≠ 0 then 1 else 0
      let text : Option String :=
        if is_sec ≠ 0 then some "out of core in secure memory" else none
      match r.2.outofcore_handler with
      | none => .fatal_error (env.gpg_error_from_errno r.2.errno) text r.2
      | some f =>
        let h := call_outofcore_handler f n is_sec r.2
        if h.1 = 0 then .fatal_error (env.gpg_error_from_errno h.2.errno) text h.2
        else _gcry_xstrdup env string fuel h.2

end libgcrypt

/-! ## Vocabulary of the statements -/

open KeyExpirationTimeSubpacket key_expiration_time_subpacket libgcrypt

/-- The big-endian value of four octets. -/
def be32 (b0 b1 b2 b3 : Byte) : Nat :=
  b0.val * 2 ^ 24 + b1.val * 2 ^ 16 + b2.val * 2 ^ 8 + b3.val

/-- The decimal value of the digits `ds` read after a number `v`. -/
def decimal_from (v : Nat) (ds : List Char) : Nat :=
  ds.foldl (fun acc c => acc * 10 + (c.toNat - 48)) v

/-- The decimal value of a run of digits (0 for the empty run). -/
def decimal_value (ds : List Char) : Nat := decimal_from 0 ds

/-- Every character of `ds` is a decimal digit. -/
def digit_run (ds : List Char) : Prop := ∀ c ∈ ds, isdigit c = true

/-- The run `ds` has no leading zero: a `0` at its head is all of it. -/
def no_leading_zero (ds : List Char) : Prop := ds.head? = some '0' → ds = ['0']

/-- A version number as the comment of `parse_version_string` has it in
`<major number>.<minor number>.<micro number>`, read strictly: a non-empty run
of decimal digits without a leading zero. -/
def version_number (ds : List Char) : Prop := ds ≠ [] ∧ digit_run ds ∧ no_leading_zero ds

instance version_number.decidable (ds : List Char) : Decidable (version_number ds) := by
  unfold version_number digit_run no_leading_zero
  infer_instance

/-- The structure `<major number>.<minor number>.<micro number><patch level>`
with three version numbers in the strict reading, whose decimal values are
`major`, `minor` and `micro`. -/
def documented_structure (s : List Char) (major minor micro : Int) (patch : List Char) : Prop :=
  ∃ d1 d2 d3 : List Char,
    s = d1 ++ '.' :: (d2 ++ '.' :: (d3 ++ patch)) ∧
    version_number d1 ∧ version_number d2 ∧ version_number d3 ∧
    major = (decimal_value d1 : Int) ∧ minor = (decimal_value d2 : Int) ∧
    micro = (decimal_value d3 : Int)

/-- A small environment to run the functions in: the allocator state is the
number of bytes still free, an allocation fails (leaving `errno` alone) when it
asks for more, addresses from 5000 on are secure memory, and every string has
length 3. -/
def demo_env : Env Nat where
  GCRY_ALLOC_FLAG_SECURE := 1
  GCRY_ALLOC_FLAG_XHINT := 2
  _gcry_private_malloc := fun n h e => if n ≤ h then (1000, h - n, e) else (0, h, e)
  _gcry_private_malloc_secure := fun n _ h e => if n ≤ h then (5000, h - n, e) else (0, h, e)
  _gcry_private_realloc := fun a n _ h e => if n ≤ h then (a, h - n, e) else (0, h, e)
  _gcry_private_free := fun _ h e => (h, e)
  _gcry_private_is_secure := fun a _ => if 5000 ≤ a then 1 else 0
  gpg_error_from_errno := fun e => if e = 0 then 0 else 16810070
  strlen := fun _ _ => 3
  strcpy := fun _ _ h => h

/-- An out-of-core handler that frees 16 bytes and asks for another try. -/
def demo_handler : gcry_handler_no_mem_t Nat := fun _ _ _ h e => (1, h + 16, e)

/-- A state with no free memory, after
`_gcry_set_outofcore_handler (demo_handler, 42)`. -/
def demo_world : World Nat :=
  _gcry_set_outofcore_handler (some demo_handler) 42
    { heap := 0, errno := 0, outofcore_handler := none, outofcore_handler_value := 0,
      no_secure_memory := 0, events := [] }

/-! ## Theorems, part 1: the key expiration time subpacket -/

theorem bind_four (b0 b1 b2 b3 : Byte) :
    key_expiration_time_subpacket.bind [b0, b1, b2, b3] = be32 b0 b1 b2 b3 := by
  have h0 := b0.isLt
  have h1 := b1.isLt
  have h2 := b2.isLt
  have h3 := b3.isLt
  simp only [key_expiration_time_subpacket.bind, be32, List.foldl]
  omega

theorem create_or_throw_four (b0 b1 b2 b3 : Byte) :
    create_or_throw [b0, b1, b2, b3] = .ok { m_expiration := be32 b0 b1 b2 b3 } := by
  simp [create_or_throw, grammar, must, Rule.run, pegtl.bytes, pegtl.eof, action,
    Input.start, bind_four]

theorem create_or_throw_short (body : List Byte) (h : body.length < 4) :
    create_or_throw body
      = .error { message := "key expiration time subpacket is invalid", position := 0 } := by
  have h4 : ¬ (4 ≤ body.length) := by omega
  simp [create_or_throw, grammar, must, Rule.run, pegtl.bytes, Input.start, h4, raise,
    error_message]

theorem must_expiration_long (body : List Byte) (h : 4 ≤ body.length)
    (pkt : KeyExpirationTimeSubpacket) :
    must .expiration (Input.start body) pkt
      = .ok ({ byte := 4, rest := body.drop 4 }, { m_expiration := key_expiration_time_subpacket.bind (body.take 4) }) := by
  simp [must, Rule.run, pegtl.bytes, Input.start, h, action]

theorem create_or_throw_long (body : List Byte) (h : 4 < body.length) :
    create_or_throw body
      = .error { message := "key expiration time subpacket is too large", position := 4 } := by
  have h4 : 4 ≤ body.length := by omega
  have hne : ¬ (body.length ≤ 4) := by omega
  simp [create_or_throw, grammar, must, Rule.run, pegtl.bytes, pegtl.eof, Input.start, h4,
    raise, error_message, hne]

theorem create_or_throw_ok_length (body : List Byte) (pkt : KeyExpirationTimeSubpacket)
    (h : create_or_throw body = .ok pkt) : body.length = 4 := by
  rcases Nat.lt_trichotomy body.length 4 with hlt | heq | hgt
  · rw [create_or_throw_short body hlt] at h; cases h
  · exact heq
  · rw [create_or_throw_long body hgt] at h; cases h

theorem list_length_four {α : Type} (l : List α) (h : l.length = 4) :
    ∃ a b c d, l = [a, b, c, d] := by
  match l, h with
  | [a, b, c, d], _ => exact ⟨a, b, c, d, rfl⟩

theorem write_body_be32 (b0 b1 b2 b3 : Byte) (out : List Byte) :
    write_body { m_expiration := be32 b0 b1 b2 b3 } out = out ++ [b0, b1, b2, b3] := by
  have h0 := b0.isLt
  have h1 := b1.isLt
  have h2 := b2.isLt
  have h3 := b3.isLt
  simp only [write_body, to_uint8, be32, Nat.shiftRight_eq_div_pow]
  congr 1
  simp only [List.cons.injEq, and_true]
  refine ⟨?_, ?_, ?_, ?_⟩ <;> apply Fin.ext <;> simp only <;> omega

theorem be32_to_uint8 (v : Nat) (h : v < 2 ^ 32) :
    be32 (to_uint8 (v >>> 24)) (to_uint8 (v >>> 16)) (to_uint8 (v >>> 8)) (to_uint8 v) = v := by
  simp only [be32, to_uint8, Nat.shiftRight_eq_div_pow]
  omega

/-- C1: decode then encode. Whenever `create_or_throw` succeeds on `body`,
`write_body` of the resulting subpacket appends exactly `body` to the output:
the same octets and the same number of them. -/
theorem create_or_throw_then_write_body (body out : List Byte)
    (pkt : KeyExpirationTimeSubpacket) (h : create_or_throw body = .ok pkt) :
    write_body pkt out = out ++ body ∧
    (write_body pkt out).length = out.length + body.length := by
  obtain ⟨b0, b1, b2, b3, rfl⟩ := list_length_four body (create_or_throw_ok_length body pkt h)
  rw [create_or_throw_four] at h
  cases h
  rw [write_body_be32]
  simp

theorem create_or_throw_then_write_body_witness :
    create_or_throw [0, 1, 81, 128] = .ok { m_expiration := 86400 } ∧
    write_body { m_expiration := 86400 } [] = [] ++ [0, 1, 81, 128] ∧
    (write_body { m_expiration := 86400 } []).length
      = ([] : List Byte).length + [(0 : Byte), 1, 81, 128].length :=
  ⟨by rfl, create_or_throw_then_write_body [0, 1, 81, 128] [] { m_expiration := 86400 } (by rfl)⟩

/-- C2: encode then decode. For every 32-bit unsigned value `v`, parsing the
octets that `write_body` emits for a subpacket with `m_expiration = v` succeeds
and gives a subpacket whose `m_expiration` is `v`. -/
theorem write_body_then_create_or_throw (v : Nat) (h : v < 2 ^ 32) :
    create_or_throw (write_body { m_expiration := v } []) = .ok { m_expiration := v } := by
  simp only [write_body, List.nil_append]
  rw [create_or_throw_four, be32_to_uint8 v h]

theorem write_body_then_create_or_throw_witness :
    (4294967295 : Nat) < 2 ^ 32 ∧
    create_or_throw (write_body { m_expiration := 4294967295 } [])
      = .ok { m_expiration := 4294967295 } :=
  ⟨by decide, write_body_then_create_or_throw 4294967295 (by decide)⟩

/-- C3: trailing data is rejected. On every body of more than 4 octets the
expiration rule matches first, consuming 4 octets and binding the field, and
then `create_or_throw` gives no subpacket: it raises the parse error of the
`eof` rule, "key expiration time subpacket is too large", at offset 4, which is
not the message of the expiration rule. -/
theorem create_or_throw_trailing_data (body : List Byte) (h : 4 < body.length) :
    create_or_throw body
      = .error { message := "key expiration time subpacket is too large", position := 4 } ∧
    (∀ pkt, create_or_throw body ≠ .ok pkt) ∧
    (∀ pos, create_or_throw body
      ≠ .error { message := "key expiration time subpacket is invalid", position := pos }) ∧
    must .expiration (Input.start body) { m_expiration := 0 }
      = .ok ({ byte := 4, rest := body.drop 4 },
             { m_expiration := key_expiration_time_subpacket.bind (body.take 4) }) := by
  rw [create_or_throw_long body h]
  refine ⟨rfl, ?_, ?_, must_expiration_long body (by omega) _⟩
  · intro pkt hc
    cases hc
  · intro pos hc
    injection hc with hc
    injection hc with hm _
    revert hm
    decide

theorem create_or_throw_trailing_data_witness :
    4 < [(0 : Byte), 1, 81, 128, 7].length ∧
    create_or_throw [0, 1, 81, 128, 7]
      = .error { message := "key expiration time subpacket is too large", position := 4 } :=
  ⟨by decide, (create_or_throw_trailing_data [0, 1, 81, 128, 7] (by decide)).1⟩

/-- C4: truncated bodies are rejected. On every body of fewer than 4 octets
`create_or_throw` gives no subpacket: it raises the parse error of the
expiration rule, "key expiration time subpacket is invalid", at offset 0. In
particular the empty body is not decoded as a zero expiration time. -/
theorem create_or_throw_truncated (body : List Byte) (h : body.length < 4) :
    create_or_throw body
      = .error { message := "key expiration time subpacket is invalid", position := 0 } ∧
    (∀ pkt, create_or_throw body ≠ .ok pkt) ∧
    create_or_throw [] ≠ .ok { m_expiration := 0 } := by
  rw [create_or_throw_short body h, create_or_throw_short [] (by decide)]
  refine ⟨rfl, ?_, ?_⟩
  · intro pkt hc
    cases hc
  · intro hc
    cases hc

theorem create_or_throw_truncated_witness :
    ([(1 : Byte), 81, 128].length < 4 ∧
      create_or_throw [1, 81, 128]
        = .error { message := "key expiration time subpacket is invalid", position := 0 }) ∧
    (([] : List Byte).length < 4 ∧
      create_or_throw []
        = .error { message := "key expiration time subpacket is invalid", position := 0 }) :=
  ⟨⟨by decide, (create_or_throw_truncated [1, 81, 128] (by decide)).1⟩,
   ⟨by decide, (create_or_throw_truncated [] (by decide)).1⟩⟩

/-- C5: big-endian decoding. On every body of exactly 4 octets `b0 b1 b2 b3`
`create_or_throw` succeeds, and `m_expiration` of the subpacket is
`b0*2^24 + b1*2^16 + b2*2^8 + b3`; the octets `00 01 51 80` decode to 86400. -/
theorem create_or_throw_big_endian :
    (∀ b0 b1 b2 b3 : Byte,
      create_or_throw [b0, b1, b2, b3]
        = .ok { m_expiration := b0.val * 2 ^ 24 + b1.val * 2 ^ 16 + b2.val * 2 ^ 8 + b3.val }) ∧
    create_or_throw [0x00, 0x01, 0x51, 0x80] = .ok { m_expiration := 86400 } :=
  ⟨fun b0 b1 b2 b3 => create_or_throw_four b0 b1 b2 b3, create_or_throw_four 0x00 0x01 0x51 0x80⟩

/-- C6: canonical encoding. For every 32-bit unsigned value `v`, `write_body`
appends exactly four octets to the output, `(v >> 24) mod 256`,
`(v >> 16) mod 256`, `(v >> 8) mod 256` and `v mod 256` in this order; they are
the big-endian representation of `v`. -/
theorem write_body_canonical (v : Nat) (out : List Byte) (h : v < 2 ^ 32) :
    (write_body { m_expiration := v } out).map Fin.val
      = out.map Fin.val
          ++ [(v >>> 24) % 256, (v >>> 16) % 256, (v >>> 8) % 256, v % 256] ∧
    (write_body { m_expiration := v } out).length = out.length + 4 ∧
    ((v >>> 24) % 256) * 2 ^ 24 + ((v >>> 16) % 256) * 2 ^ 16 + ((v >>> 8) % 256) * 2 ^ 8
      + v % 256 = v := by
  refine ⟨by simp [write_body, to_uint8], by simp [write_body], ?_⟩
  simp only [Nat.shiftRight_eq_div_pow]
  omega

theorem write_body_canonical_witness :
    (86400 : Nat) < 2 ^ 32 ∧
    write_body { m_expiration := 86400 } [] = [0x00, 0x01, 0x51, 0x80] ∧
    (write_body { m_expiration := 86400 } []).map Fin.val
      = ([] : List Byte).map Fin.val
          ++ [(86400 >>> 24) % 256, (86400 >>> 16) % 256, (86400 >>> 8) % 256, 86400 % 256] :=
  ⟨by decide, by decide, (write_body_canonical 86400 [] (by decide)).1⟩

/-! ## Theorems, part 2: version number parsing -/

theorem wrap_int_of_fits (x : Int) (h0 : 0 ≤ x) (h1 : x < 2 ^ 31) : wrap_int x = x := by
  unfold wrap_int
  norm_num at h1 ⊢
  omega

theorem decimal_from_ge (ds : List Char) (v : Nat) : v ≤ decimal_from v ds := by
  induction ds generalizing v with
  | nil => simp [decimal_from]
  | cons c cs ih =>
    have h := ih (v * 10 + (c.toNat - 48))
    simp only [decimal_from, List.foldl] at h ⊢
    omega

theorem isdigit_toNat (c : Char) (h : isdigit c = true) : 48 ≤ c.toNat ∧ c.toNat ≤ 57 := by
  simpa [isdigit] using h

theorem loop_digits (ds rest : List Char) (v : Nat) (hd : digit_run ds)
    (hr : isdigit (deref rest) = false) (hfit : decimal_from v ds < 2 ^ 31) :
    parse_version_number.loop (ds ++ rest) (v : Int) = (rest, (decimal_from v ds : Int)) := by
  induction ds generalizing v with
  | nil =>
    cases rest with
    | nil => simp [parse_version_number.loop, decimal_from]
    | cons c cs =>
      have hc : isdigit c = false := by simpa [deref] using hr
      simp [parse_version_number.loop, decimal_from, hc]
  | cons c cs ih =>
    have hc : isdigit c = true := hd c (List.mem_cons_self c cs)
    have hb := isdigit_toNat c hc
    have hge := decimal_from_ge cs (v * 10 + (c.toNat - 48))
    have hfit2 : decimal_from (v * 10 + (c.toNat - 48)) cs < 2 ^ 31 := by
      simpa [decimal_from] using hfit
    have hlt : v * 10 + (c.toNat - 48) < 2 ^ 31 := lt_of_le_of_lt hge hfit2
    have hw : wrap_int (wrap_int ((v : Int) * 10) + ((c.toNat : Int) - 48))
        = ((v * 10 + (c.toNat - 48) : Nat) : Int) := by
      norm_num at hlt
      rw [wrap_int_of_fits ((v : Int) * 10) (by omega) (by norm_num; omega)]
      rw [wrap_int_of_fits _ (by omega) (by norm_num; omega)]
      omega
    have hcs : digit_run cs := fun d hdm => hd d (List.mem_cons_of_mem c hdm)
    have hstep : parse_version_number.loop (c :: (cs ++ rest)) (v : Int)
        = parse_version_number.loop (cs ++ rest) ((v * 10 + (c.toNat - 48) : Nat) : Int) := by
      simp only [parse_version_number.loop, hc, if_true, hw]
    rw [List.cons_append, hstep, ih (v * 10 + (c.toNat - 48)) hcs hfit2]
    simp [decimal_from]

theorem loop_fst (s : List Char) (val : Int) :
    (parse_version_number.loop s val).1 = s.dropWhile isdigit := by
  induction s generalizing val with
  | nil => simp [parse_version_number.loop]
  | cons c cs ih =>
    by_cases hc : isdigit c = true
    · simp [parse_version_number.loop, hc, ih, List.dropWhile]
    · simp [parse_version_number.loop, hc, List.dropWhile]

theorem digit_run_takeWhile (s : List Char) : digit_run (s.takeWhile isdigit) := by
  intro c hc
  exact (List.mem_takeWhile_imp hc)

theorem deref_dropWhile (s : List Char) : isdigit (deref (s.dropWhile isdigit)) = false := by
  induction s with
  | nil => decide
  | cons c cs ih =>
    by_cases hc : isdigit c = true
    · simpa [List.dropWhile, hc] using ih
    · simp [List.dropWhile, hc, deref]

theorem parse_version_number_accepts (ds rest : List Char) (number : Int)
    (hd : digit_run ds) (hz : no_leading_zero ds) (hr : isdigit (deref rest) = false)
    (hfit : decimal_value ds < 2 ^ 31) :
    parse_version_number (ds ++ rest) number = (some rest, (decimal_value ds : Int)) := by
  have hcond : ¬ (deref (ds ++ rest) = '0' ∧ isdigit (deref ((ds ++ rest).drop 1)) = true) := by
    rintro ⟨h0, h1⟩
    match ds, hz with
    | [], _ =>
      simp only [List.nil_append] at h0
      rw [h0] at hr
      revert hr
      decide
    | [c], _ =>
      simp only [List.singleton_append, List.drop_succ_cons, List.drop_zero] at h1
      rw [h1] at hr
      cases hr
    | c :: d :: cs, hz =>
      simp only [List.cons_append, deref, List.headD_cons] at h0
      have := hz (by rw [h0]; rfl)
      simp at this
  have hl := loop_digits ds rest 0 hd hr hfit
  simp only [Nat.cast_zero] at hl
  unfold parse_version_number
  rw [if_neg hcond, hl]
  have hnn : ¬ ((decimal_from 0 ds : Int) < 0) := by omega
  simp [hnn, decimal_value]

theorem parse_version_number_some (s s1 : List Char) (number val : Int)
    (h : parse_version_number s number = (some s1, val)) :
    s1 = s.dropWhile isdigit ∧ 0 ≤ val ∧ no_leading_zero (s.takeWhile isdigit) ∧
    (decimal_value (s.takeWhile isdigit) < 2 ^ 31 →
      val = (decimal_value (s.takeWhile isdigit) : Int)) := by
  unfold parse_version_number at h
  by_cases hcond : deref s = '0' ∧ isdigit (deref (s.drop 1)) = true
  · rw [if_pos hcond] at h
    cases h
  · rw [if_neg hcond] at h
    simp only [Prod.mk.injEq] at h
    obtain ⟨h1, h2⟩ := h
    by_cases hneg : (parse_version_number.loop s 0).2 < 0
    · rw [if_pos hneg] at h1
      cases h1
    · rw [if_neg hneg] at h1
      simp only [Option.some.injEq] at h1
      refine ⟨?_, ?_, ?_, ?_⟩
      · rw [← h1, loop_fst]
      · rw [← h2]
        omega
      · intro hs
        match s, hs, hcond with
        | [], hs, _ => simp at hs
        | a :: t, hs, hcond =>
          by_cases ha : isdigit a = true
          · simp only [List.takeWhile, ha, List.head?_cons, Option.some.injEq] at hs
            subst hs
            match t, hcond with
            | [], _ => simp [List.takeWhile, ha]
            | b :: u, hcond =>
              by_cases hb : isdigit b = true
              · exact absurd ⟨by simp [deref], by simp [deref, hb]⟩ hcond
              · simp [List.takeWhile, ha, hb]
          · simp [List.takeWhile, ha] at hs
      · intro hfit
        have hl := loop_digits (s.takeWhile isdigit) (s.dropWhile isdigit) 0
          (digit_run_takeWhile s) (deref_dropWhile s) hfit
        rw [List.takeWhile_append_dropWhile] at hl
        simp only [Nat.cast_zero] at hl
        rw [← h2, hl]
        rfl

/-- C9: well-formed version strings are accepted. On
`<major>.<minor>.<micro><patch>`, where each number is a non-empty run of
decimal digits without a leading zero whose value fits in a signed 32-bit
`int` and `<patch>` does not begin with a digit, `parse_version_string`
returns the suffix `<patch>` and stores the three decimal values. -/
theorem parse_version_string_accepts (d1 d2 d3 patch : List Char) (major minor micro : Int)
    (h1 : version_number d1) (h2 : version_number d2) (h3 : version_number d3)
    (f1 : decimal_value d1 < 2 ^ 31) (f2 : decimal_value d2 < 2 ^ 31)
    (f3 : decimal_value d3 < 2 ^ 31) (hp : isdigit (deref patch) = false) :
    parse_version_string (d1 ++ '.' :: (d2 ++ '.' :: (d3 ++ patch))) major minor micro
      = (some patch, (decimal_value d1 : Int), (decimal_value d2 : Int),
          (decimal_value d3 : Int)) := by
  have hdot : ∀ t : List Char, isdigit (deref ('.' :: t)) = false := fun t => by
    simp only [deref, List.headD_cons]
    decide
  unfold parse_version_string
  rw [parse_version_number_accepts d1 _ major h1.2.1 h1.2.2 (hdot _) f1]
  simp only [deref, List.headD_cons, ne_eq, not_true_eq_false, if_false, List.drop_succ_cons,
    List.drop_zero]
  rw [parse_version_number_accepts d2 _ minor h2.2.1 h2.2.2 (hdot _) f2]
  simp only [List.headD_cons, ne_eq, not_true_eq_false, if_false, List.drop_succ_cons,
    List.drop_zero]
  rw [parse_version_number_accepts d3 _ micro h3.2.1 h3.2.2 hp f3]

theorem parse_version_string_accepts_witness :
    parse_version_string ("1.22.0-beta".toList) 7 7 7 = (some ("-beta".toList), 1, 22, 0) :=
  parse_version_string_accepts ['1'] ['2', '2'] ['0'] ("-beta".toList) 7 7 7
    (by decide) (by decide) (by decide) (by decide) (by decide) (by decide) (by decide)

/-- C10, as stated, fails: on the string `..` `parse_version_string` returns a
pointer (to the empty patch level) and stores `0`, `0`, `0`, although no
component of the string is a non-empty run of digits. -/
theorem parse_version_string_empty_components :
    parse_version_string ['.', '.'] 7 7 7 = (some [], 0, 0, 0) ∧
    ¬ documented_structure ['.', '.'] 0 0 0 [] := by
  refine ⟨by decide, ?_⟩
  rintro ⟨d1, d2, d3, hs, h1, -⟩
  obtain ⟨hne, hd, -⟩ := h1
  match d1, hne, hd, hs with
  | c :: cs, _, hd, hs =>
    simp only [List.cons_append, List.cons.injEq] at hs
    have hc := hd c (List.mem_cons_self c cs)
    rw [← hs.1] at hc
    revert hc
    decide

/-- C10, amended: whenever `parse_version_string` returns a pointer, the
string is `d1 . d2 . d3 patch` where each of `d1`, `d2`, `d3` is a run of
decimal digits, possibly empty, without a leading zero; the returned pointer is
`patch`, which does not begin with a digit; the three stored values are
non-negative, and each equals the decimal value of its run (0 for the empty
run) whenever that value fits in a signed 32-bit `int`. -/
theorem parse_version_string_some (s patch : List Char) (major minor micro a b c : Int)
    (h : parse_version_string s major minor micro = (some patch, a, b, c)) :
    ∃ d1 d2 d3 : List Char,
      s = d1 ++ '.' :: (d2 ++ '.' :: (d3 ++ patch)) ∧
      (digit_run d1 ∧ no_leading_zero d1) ∧ (digit_run d2 ∧ no_leading_zero d2) ∧
      (digit_run d3 ∧ no_leading_zero d3) ∧
      isdigit (deref patch) = false ∧
      0 ≤ a ∧ 0 ≤ b ∧ 0 ≤ c ∧
      (decimal_value d1 < 2 ^ 31 → a = (decimal_value d1 : Int)) ∧
      (decimal_value d2 < 2 ^ 31 → b = (decimal_value d2 : Int)) ∧
      (decimal_value d3 < 2 ^ 31 → c = (decimal_value d3 : Int)) := by
  have hsplit : ∀ t u : List Char, t.dropWhile isdigit = u → t = t.takeWhile isdigit ++ u :=
    fun t u ht => by rw [← ht, List.takeWhile_append_dropWhile]
  have hderef : ∀ t : List Char, ¬ deref t ≠ '.' → t = '.' :: t.drop 1 := by
    intro t ht
    match t, ht with
    | [], ht => exact absurd (by decide) ht
    | x :: xs, ht =>
      simp only [deref, List.headD_cons, ne_eq, not_not] at ht
      simp [ht]
  unfold parse_version_string at h
  rcases e1 : parse_version_number s major with ⟨_ | s1, major1⟩
  · rw [e1] at h
    cases h
  rw [e1] at h
  simp only at h
  by_cases hd1 : deref s1 ≠ '.'
  · rw [if_pos hd1] at h
    cases h
  rw [if_neg hd1] at h
  rcases e2 : parse_version_number (s1.drop 1) minor with ⟨_ | s2, minor1⟩
  · rw [e2] at h
    cases h
  rw [e2] at h
  simp only at h
  by_cases hd2 : deref s2 ≠ '.'
  · rw [if_pos hd2] at h
    cases h
  rw [if_neg hd2] at h
  rcases e3 : parse_version_number (s2.drop 1) micro with ⟨_ | s3, micro1⟩
  · rw [e3] at h
    cases h
  rw [e3] at h
  simp only [Prod.mk.injEq, Option.some.injEq] at h
  obtain ⟨rfl, rfl, rfl, rfl⟩ := h
  obtain ⟨p1, n1, z1, v1⟩ := parse_version_number_some _ _ _ _ e1
  obtain ⟨p2, n2, z2, v2⟩ := parse_version_number_some _ _ _ _ e2
  obtain ⟨p3, n3, z3, v3⟩ := parse_version_number_some _ _ _ _ e3
  refine ⟨s.takeWhile isdigit, (s1.drop 1).takeWhile isdigit, (s2.drop 1).takeWhile isdigit,
    ?_, ⟨digit_run_takeWhile _, z1⟩, ⟨digit_run_takeWhile _, z2⟩, ⟨digit_run_takeWhile _, z3⟩,
    ?_, n1, n2, n3, v1, v2, v3⟩
  · have q3 := hsplit _ _ p3.symm
    have q2 := hsplit _ _ p2.symm
    have q1 := hsplit _ _ p1.symm
    rw [← q3, ← hderef s2 hd2, ← q2, ← hderef s1 hd1]
    exact q1
  · rw [p3]
    exact deref_dropWhile _

theorem parse_version_string_some_witness :
    parse_version_string ("1.22.0-beta".toList) 7 7 7 = (some ("-beta".toList), 1, 22, 0) ∧
    ∃ d1 d2 d3 : List Char,
      "1.22.0-beta".toList = d1 ++ '.' :: (d2 ++ '.' :: (d3 ++ "-beta".toList)) ∧
      (digit_run d1 ∧ no_leading_zero d1) ∧ (digit_run d2 ∧ no_leading_zero d2) ∧
      (digit_run d3 ∧ no_leading_zero d3) ∧
      isdigit (deref "-beta".toList) = false ∧
      (0 : Int) ≤ 1 ∧ (0 : Int) ≤ 22 ∧ (0 : Int) ≤ 0 ∧
      (decimal_value d1 < 2 ^ 31 → (1 : Int) = (decimal_value d1 : Int)) ∧
      (decimal_value d2 < 2 ^ 31 → (22 : Int) = (decimal_value d2 : Int)) ∧
      (decimal_value d3 < 2 ^ 31 → (0 : Int) = (decimal_value d3 : Int)) :=
  ⟨by decide, parse_version_string_some ("1.22.0-beta".toList) ("-beta".toList) 7 7 7 1 22 0
    (by decide)⟩

/-! ## Theorems, part 3: memory management -/

theorem allocate_secure {H : Type} (env : Env H) (n flags : Nat) (w : World H)
    (hs : flags &&& env.GCRY_ALLOC_FLAG_SECURE ≠ 0 ∧ get_no_secure_memory w = 0) :
    (do_malloc.allocate env n flags w).1
      = (env._gcry_private_malloc_secure n
          (if flags &&& env.GCRY_ALLOC_FLAG_XHINT ≠ 0 then 1 else 0) w.heap w.errno).1 ∧
    (do_malloc.allocate env n flags w).2.errno
      = (env._gcry_private_malloc_secure n
          (if flags &&& env.GCRY_ALLOC_FLAG_XHINT ≠ 0 then 1 else 0) w.heap w.errno).2.2 := by
  unfold do_malloc.allocate
  rw [if_pos hs]
  exact ⟨rfl, rfl⟩

theorem allocate_plain {H : Type} (env : Env H) (n flags : Nat) (w : World H)
    (hs : ¬ (flags &&& env.GCRY_ALLOC_FLAG_SECURE ≠ 0 ∧ get_no_secure_memory w = 0)) :
    (do_malloc.allocate env n flags w).1 = (env._gcry_private_malloc n w.heap w.errno).1 ∧
    (do_malloc.allocate env n flags w).2.errno
      = (env._gcry_private_malloc n w.heap w.errno).2.2 := by
  unfold do_malloc.allocate
  rw [if_neg hs]
  exact ⟨rfl, rfl⟩

theorem do_malloc_null {H : Type} (env : Env H) (n flags : Nat) (mem : Ptr) (w : World H)
    (h : (do_malloc.allocate env n flags w).1 = NULL) :
    (do_malloc env n flags mem w).1
      = env.gpg_error_from_errno
          (if (do_malloc.allocate env n flags w).2.errno = 0 then ENOMEM
           else (do_malloc.allocate env n flags w).2.errno) ∧
    (do_malloc env n flags mem w).2.1 = mem ∧
    (do_malloc env n flags mem w).2.2.errno
      = (if (do_malloc.allocate env n flags w).2.errno = 0 then ENOMEM
         else (do_malloc.allocate env n flags w).2.errno) := by
  unfold do_malloc
  simp only [h, if_true]
  by_cases he : (do_malloc.allocate env n flags w).2.errno = 0
  · simp only [he, if_true, and_self]
  · simp only [he, if_false, and_self]

theorem do_malloc_nonnull {H : Type} (env : Env H) (n flags : Nat) (mem : Ptr) (w : World H)
    (h : (do_malloc.allocate env n flags w).1 ≠ NULL) :
    do_malloc env n flags mem w
      = (0, (do_malloc.allocate env n flags w).1, (do_malloc.allocate env n flags w).2) := by
  unfold do_malloc
  simp only [h, if_false]

theorem do_malloc_generic {H : Type} (env : Env H) (n flags : Nat) (mem : Ptr) (w : World H)
    (herr : ∀ e : Int, e ≠ 0 → env.gpg_error_from_errno e ≠ 0) (p : Ptr) (e : Int)
    (hp : (do_malloc.allocate env n flags w).1 = p)
    (he : (do_malloc.allocate env n flags w).2.errno = e) :
    ((do_malloc env n flags mem w).1 ≠ 0 ↔ p = NULL) ∧
    (p = NULL → (do_malloc env n flags mem w).2.1 = mem ∧
      (do_malloc env n flags mem w).2.2.errno ≠ 0 ∧
      (do_malloc env n flags mem w).2.2.errno = (if e = 0 then ENOMEM else e)) ∧
    (p ≠ NULL → (do_malloc env n flags mem w).1 = 0 ∧ (do_malloc env n flags mem w).2.1 = p) := by
  have hE : ENOMEM ≠ 0 := by decide
  subst hp he
  by_cases h : (do_malloc.allocate env n flags w).1 = NULL
  · obtain ⟨h1, h2, h3⟩ := do_malloc_null env n flags mem w h
    have hnz : (if (do_malloc.allocate env n flags w).2.errno = 0 then ENOMEM
        else (do_malloc.allocate env n flags w).2.errno) ≠ 0 := by
      split
      · exact hE
      · assumption
    refine ⟨⟨fun _ => h, fun _ => by rw [h1]; exact herr _ hnz⟩, fun _ => ⟨h2, ?_, h3⟩,
      fun hn => absurd h hn⟩
    rw [h3]
    exact hnz
  · have hd := do_malloc_nonnull env n flags mem w h
    refine ⟨⟨fun hne => absurd (by rw [hd]) hne, fun hn => absurd hn h⟩,
      fun hn => absurd hn h, fun _ => by rw [hd]; exact ⟨rfl, rfl⟩⟩

theorem do_malloc_selected {H : Type} (env : Env H) (n flags : Nat) (mem : Ptr) (w : World H)
    (herr : ∀ e : Int, e ≠ 0 → env.gpg_error_from_errno e ≠ 0) :
    let a : Ptr × H × Int :=
      if flags &&& env.GCRY_ALLOC_FLAG_SECURE ≠ 0 ∧ get_no_secure_memory w = 0 then
        env._gcry_private_malloc_secure n
          (if flags &&& env.GCRY_ALLOC_FLAG_XHINT ≠ 0 then 1 else 0) w.heap w.errno
      else env._gcry_private_malloc n w.heap w.errno
    let d := do_malloc env n flags mem w
    (d.1 ≠ 0 ↔ a.1 = NULL) ∧
    (a.1 = NULL → d.2.1 = mem ∧ d.2.2.errno ≠ 0 ∧
       d.2.2.errno = (if a.2.2 = 0 then ENOMEM else a.2.2)) ∧
    (a.1 ≠ NULL → d.1 = 0 ∧ d.2.1 = a.1) := by
  intro a d
  by_cases hs : flags &&& env.GCRY_ALLOC_FLAG_SECURE ≠ 0 ∧ get_no_secure_memory w = 0
  · have ha : a = env._gcry_private_malloc_secure n
        (if flags &&& env.GCRY_ALLOC_FLAG_XHINT ≠ 0 then 1 else 0) w.heap w.errno := if_pos hs
    rw [ha]
    exact do_malloc_generic env n flags mem w herr _ _ (allocate_secure env n flags w hs).1
      (allocate_secure env n flags w hs).2
  · have ha : a = env._gcry_private_malloc n w.heap w.errno := if_neg hs
    rw [ha]
    exact do_malloc_generic env n flags mem w herr _ _ (allocate_plain env n flags w hs).1
      (allocate_plain env n flags w hs).2

theorem do_malloc_from_null {H : Type} (env : Env H) (n flags : Nat) (w : World H)
    (herr : ∀ e : Int, e ≠ 0 → env.gpg_error_from_errno e ≠ 0) :
    let a : Ptr × H × Int :=
      if flags &&& env.GCRY_ALLOC_FLAG_SECURE ≠ 0 ∧ get_no_secure_memory w = 0 then
        env._gcry_private_malloc_secure n
          (if flags &&& env.GCRY_ALLOC_FLAG_XHINT ≠ 0 then 1 else 0) w.heap w.errno
      else env._gcry_private_malloc n w.heap w.errno
    (do_malloc env n flags NULL w).2.1 = a.1 ∧
    (a.1 = NULL → (do_malloc env n flags NULL w).2.1 = NULL ∧
      (do_malloc env n flags NULL w).2.2.errno ≠ 0) := by
  intro a
  have h := do_malloc_selected env n flags NULL w herr
  by_cases hn : a.1 = NULL
  · have h1 := h.2.1 hn
    exact ⟨h1.1.trans hn.symm, fun _ => ⟨h1.1, h1.2.1⟩⟩
  · exact ⟨(h.2.2 hn).2, fun h0 => absurd h0 hn⟩

/-- C8: allocation failure is a propagated error. Let `a` be what the
underlying allocator returns (`_gcry_private_malloc_secure` when the secure
flag is set and secure memory is not disabled, `_gcry_private_malloc`
otherwise), and let `gpg_error_from_errno` give a non-zero code for a non-zero
`errno`. Then `do_malloc` returns a non-zero error code exactly when `a` is
NULL; in that case `*mem` is unchanged and `errno` is non-zero afterwards
(`ENOMEM` if the allocator left it at 0, the allocator's value otherwise); on
success the error code is 0 and `*mem` is `a`. In every state `_gcry_malloc`
returns the pointer of `_gcry_private_malloc`, and `_gcry_malloc_secure` the
pointer of the allocator `do_malloc` selects for it
(`_gcry_private_malloc_secure`, or `_gcry_private_malloc` when secure memory
is disabled); so each returns NULL, with `errno` non-zero, when that allocator
returns NULL. -/
theorem do_malloc_propagates {H : Type} (env : Env H) (n flags : Nat) (mem : Ptr) (w : World H)
    (herr : ∀ e : Int, e ≠ 0 → env.gpg_error_from_errno e ≠ 0) :
    let a : Ptr × H × Int :=
      if flags &&& env.GCRY_ALLOC_FLAG_SECURE ≠ 0 ∧ get_no_secure_memory w = 0 then
        env._gcry_private_malloc_secure n
          (if flags &&& env.GCRY_ALLOC_FLAG_XHINT ≠ 0 then 1 else 0) w.heap w.errno
      else env._gcry_private_malloc n w.heap w.errno
    let d := do_malloc env n flags mem w
    let plain : Ptr × H × Int := env._gcry_private_malloc n w.heap w.errno
    let secure : Ptr × H × Int :=
      if env.GCRY_ALLOC_FLAG_SECURE ≠ 0 ∧ get_no_secure_memory w = 0 then
        env._gcry_private_malloc_secure n
          (if env.GCRY_ALLOC_FLAG_SECURE &&& env.GCRY_ALLOC_FLAG_XHINT ≠ 0 then 1 else 0)
          w.heap w.errno
      else env._gcry_private_malloc n w.heap w.errno
    ((d.1 ≠ 0 ↔ a.1 = NULL) ∧
     (a.1 = NULL → d.2.1 = mem ∧ d.2.2.errno ≠ 0 ∧
        d.2.2.errno = (if a.2.2 = 0 then ENOMEM else a.2.2)) ∧
     (a.1 ≠ NULL → d.1 = 0 ∧ d.2.1 = a.1)) ∧
    ((_gcry_malloc env n w).1 = plain.1 ∧
     (plain.1 = NULL → (_gcry_malloc env n w).1 = NULL ∧ (_gcry_malloc env n w).2.errno ≠ 0)) ∧
    ((_gcry_malloc_secure env n w).1 = secure.1 ∧
     (secure.1 = NULL →
        (_gcry_malloc_secure env n w).1 = NULL ∧ (_gcry_malloc_secure env n w).2.errno ≠ 0)) := by
  intro a d plain secure
  refine ⟨do_malloc_selected env n flags mem w herr, ?_, ?_⟩
  · have h := do_malloc_from_null env n 0 w herr
    simp only [Nat.zero_and, ne_eq, not_true_eq_false, false_and, if_false] at h
    exact h
  · have hf : env.GCRY_ALLOC_FLAG_SECURE ||| (if (0 : Int) ≠ 0 then env.GCRY_ALLOC_FLAG_XHINT else 0)
        = env.GCRY_ALLOC_FLAG_SECURE := by simp
    have h := do_malloc_from_null env n env.GCRY_ALLOC_FLAG_SECURE w herr
    simp only [Nat.and_self] at h
    simp only [_gcry_malloc_secure, _gcry_malloc_secure_core, hf]
    exact h

theorem do_malloc_propagates_witness :
    (demo_env._gcry_private_malloc 4 demo_world.heap demo_world.errno).1 = NULL ∧
    (do_malloc demo_env 4 0 77 demo_world).1 ≠ 0 ∧
    (do_malloc demo_env 4 0 77 demo_world).2.1 = 77 ∧
    (do_malloc demo_env 4 0 77 demo_world).2.2.errno ≠ 0 ∧
    (_gcry_malloc demo_env 4 demo_world).1 = NULL ∧
    (_gcry_malloc_secure demo_env 4 demo_world).1 = NULL ∧
    (_gcry_malloc_secure demo_env 4 demo_world).2.errno ≠ 0 ∧
    (_gcry_malloc_secure demo_env 4 { demo_world with no_secure_memory := 1 }).1 = NULL :=
  have h := do_malloc_propagates demo_env 4 0 77 demo_world
    (fun e he => by simp [demo_env, he])
  have g := do_malloc_propagates demo_env 4 0 77 { demo_world with no_secure_memory := 1 }
    (fun e he => by simp [demo_env, he])
  ⟨by decide, h.1.1.2 (by decide), (h.1.2.1 (by decide)).1, (h.1.2.1 (by decide)).2.1,
    (h.2.1.2 (by decide)).1, (h.2.2.2 (by decide)).1, (h.2.2.2 (by decide)).2,
    (g.2.2.2 (by decide)).1⟩

/-- C7 at a failing input: with no memory free and a handler installed that
frees some and asks for another try, `_gcry_xstrdup` of a string of length 3
asks the allocator for 4 bytes and calls the handler with the opaque value 42,
the flag word 0 (1 for a string in secure memory) and the size 3, one less than
the failed allocation requested.
On the same state `_gcry_xmalloc (4)`, `_gcry_xmalloc_secure (4)` and
`_gcry_xrealloc (a, 4)` pass the requested size 4, with the flag words 0, 1
and 2. -/
theorem xstrdup_handler_size :
    (_gcry_xstrdup demo_env 2000 2 demo_world).world.events
      = [Event.private_malloc 4, Event.outofcore_handler 42 3 0, Event.private_malloc 4] ∧
    (_gcry_xstrdup demo_env 6000 2 demo_world).world.events
      = [Event.private_malloc_secure 4 1, Event.outofcore_handler 42 3 1,
         Event.private_malloc_secure 4 1] ∧
    demo_env.strlen 2000 demo_world.heap + 1 = 4 ∧
    (_gcry_xmalloc demo_env 4 2 demo_world).world.events
      = [Event.private_malloc 4, Event.outofcore_handler 42 4 0, Event.private_malloc 4] ∧
    (_gcry_xmalloc_secure demo_env 4 2 demo_world).world.events
      = [Event.private_malloc_secure 4 1, Event.outofcore_handler 42 4 1,
         Event.private_malloc_secure 4 1] ∧
    (_gcry_xrealloc demo_env 2000 4 2 demo_world).world.events
      = [Event.private_realloc 2000 4 1, Event.outofcore_handler 42 4 2,
         Event.private_realloc 2000 4 1] := by
  refine ⟨?_, ?_, ?_, ?_, ?_, ?_⟩ <;> decide

end NeoPG
